import Mathlib

/-!
Verification of the vector-tile decoder (`src/tile.ts`).

The decoder parses a Mapbox vector tile: a protobuf byte buffer containing
layers, which contain features, whose geometry is a command/zigzag-delta
stream.  The shallow embedding below mirrors the TypeScript source:

* bytes are `List Nat`, the shared `BinaryReader` cursor is an explicit
  `pos : Nat` threaded through every operation;
* fallible reads return `Option`, modelling thrown `RangeError`/format
  errors;
* every decode loop of the source (tile scan, layer scan, feature scan,
  key/value pair scan, value scan, geometry and bbox command loops) is an
  explicit step function iterated by the bounded combinator `loopFuel`,
  always invoked with provably sufficient fuel.
-/

namespace VectorTileProof

/-- A byte buffer (each entry is one byte). -/
abbrev Bytes := List Nat

/-! ### Wire-format reader

Modelled from the spec: the low-level wire reader (`BinaryReader` of
protobuf-ts) is an external collaborator, out of scope of the repository;
the spec describes its interface as tag reads, variable-length integer
reads (signed/unsigned/zigzag, 32 and 64 bit), length-delimited skip and
string/bytes extraction, failing when the buffer ends mid-field or a
length prefix overruns the buffer.  Group wire types are rejected. -/

/-- Core base-128 varint read on the remaining byte list.
Returns the value and the number of bytes consumed. -/
def varintCore : List Nat → Option (Nat × Nat)
  | [] => none
  | b :: rest =>
    if b % 256 < 128 then some (b % 256, 1)
    else
      match varintCore rest with
      | none => none
      | some (v, n) => some (b % 128 + 128 * v, n + 1)

/-- Read a varint at `pos`; returns the value and the new position. -/
def readVarint (data : Bytes) (pos : Nat) : Option (Nat × Nat) :=
  match varintCore (data.drop pos) with
  | none => none
  | some (v, n) => some (v, pos + n)

/-- `reader.uint32()`: varint truncated to 32 bits. -/
def readUint32 (data : Bytes) (pos : Nat) : Option (Nat × Nat) :=
  (readVarint data pos).map (fun vp => (vp.1 % 2 ^ 32, vp.2))

/-- Zigzag decoding of a 32-bit value. -/
def zigzag (v : Nat) : Int :=
  if v % 2 = 0 then ((v / 2 : Nat) : Int) else -(((v / 2 : Nat) : Int) + 1)

/-- `reader.sint32()`: zigzag-encoded signed 32-bit varint. -/
def readSint32 (data : Bytes) (pos : Nat) : Option (Int × Nat) :=
  (readVarint data pos).map (fun vp => (zigzag (vp.1 % 2 ^ 32), vp.2))

/-- `reader.int64()`: plain varint interpreted as signed 64-bit. -/
def readInt64 (data : Bytes) (pos : Nat) : Option (Int × Nat) :=
  (readVarint data pos).map (fun vp =>
    (if vp.1 % 2 ^ 64 < 2 ^ 63 then ((vp.1 % 2 ^ 64 : Nat) : Int)
     else ((vp.1 % 2 ^ 64 : Nat) : Int) - 2 ^ 64, vp.2))

/-- `reader.uint64()`: varint truncated to 64 bits. -/
def readUint64 (data : Bytes) (pos : Nat) : Option (Nat × Nat) :=
  (readVarint data pos).map (fun vp => (vp.1 % 2 ^ 64, vp.2))

/-- `reader.sint64()`: zigzag-encoded signed 64-bit varint. -/
def readSint64 (data : Bytes) (pos : Nat) : Option (Int × Nat) :=
  (readVarint data pos).map (fun vp => (zigzag (vp.1 % 2 ^ 64), vp.2))

/-- `reader.bool()`: varint, nonzero means true. -/
def readBool (data : Bytes) (pos : Nat) : Option (Bool × Nat) :=
  (readVarint data pos).map (fun vp => (decide (vp.1 % 2 ^ 64 ≠ 0), vp.2))

/-- Length-delimited bytes (`reader.string()` / `reader.bytes()`):
a uint32 length prefix followed by that many raw bytes. -/
def readBytesLen (data : Bytes) (pos : Nat) : Option (Bytes × Nat) :=
  match readUint32 data pos with
  | none => none
  | some (len, p) =>
    if p + len ≤ data.length then some ((data.drop p).take len, p + len) else none

/-- Fixed-width read of `n` raw bytes (float32 / float64 payloads). -/
def readFixed (n : Nat) (data : Bytes) (pos : Nat) : Option (Bytes × Nat) :=
  if pos + n ≤ data.length then some ((data.drop pos).take n, pos + n) else none

/-- `reader.tag()`: a uint32 split into field number and wire type; field
number 0 and wire types above 5 are rejected. -/
def readTag (data : Bytes) (pos : Nat) : Option (Nat × Nat × Nat) :=
  match readUint32 data pos with
  | none => none
  | some (t, p) =>
    if t / 8 = 0 ∨ 5 < t % 8 then none else some (t / 8, t % 8, p)

/-- `reader.skip(wireType)`: skip one field of the given wire type. -/
def skipField (data : Bytes) (wire : Nat) (pos : Nat) : Option Nat :=
  if wire = 0 then (readVarint data pos).map (fun vp => vp.2)
  else if wire = 1 then
    if pos + 8 ≤ data.length then some (pos + 8) else none
  else if wire = 2 then
    match readUint32 data pos with
    | none => none
    | some (len, p) => if p + len ≤ data.length then some (p + len) else none
  else if wire = 5 then
    if pos + 4 ≤ data.length then some (pos + 4) else none
  else none

/-! ### The bounded while-loop

Every `while (reader.pos < end)` loop of the source is the iteration of a
step function below an end offset.  `loopFuel` iterates a step while the
position projection is below the bound, consuming one unit of fuel per
iteration; all call sites pass fuel strictly larger than a strictly
decreasing measure of the loop, so the fuel never runs out (see the
termination theorems at the end of the file). -/

def loopFuel {σ : Type} (end_ : Nat) (step : σ → Option σ) (getPos : σ → Nat) :
    Nat → σ → Option σ
  | 0, _ => none
  | fuel + 1, s =>
    if getPos s < end_ then
      match step s with
      | none => none
      | some s' => loopFuel end_ step getPos fuel s'
    else some s

/-! ### Data model -/

/-- `Point`: immutable pair of coordinates (`class Point`). -/
structure Point where
  x : Int
  y : Int
deriving Repr, DecidableEq

/-- A decoded property value (`PropValues`).  Strings are kept as their raw
UTF-8 bytes and float/double payloads as their raw IEEE bytes; the
caller-selected 64-bit representation policy (`LongType`) only changes the
surface form of the three integer cases and is not modelled. -/
inductive PropValue where
  | str : Bytes → PropValue
  | flt : Bytes → PropValue
  | dbl : Bytes → PropValue
  | intV : Int → PropValue
  | uintV : Nat → PropValue
  | sintV : Int → PropValue
  | boolV : Bool → PropValue
  | null : PropValue
deriving Repr, DecidableEq

/-- One entry of a feature's property dictionary: the key resolved from the
layer's key table and the value resolved from its value table
(`this.properties[key] = value`); an out-of-range index resolves to `none`
(JavaScript `undefined`).  Entries are kept in insertion order. -/
abbrev Entry := Option Bytes × Option PropValue

/-- A decoded feature (`class Feature`). -/
structure Feature where
  id : Option Int
  ftype : Nat
  props : List Entry
  geomOffset : Nat
  extent : Nat
deriving Repr, DecidableEq

/-- A decoded layer (`class Layer`). -/
structure Layer where
  name : Bytes
  version : Nat
  extent : Nat
  featureOffsets : List Nat
  keys : List Bytes
  values : List PropValue
deriving Repr, DecidableEq

/-- `layer.length`: the number of recorded feature offsets. -/
def Layer.length (ly : Layer) : Nat := ly.featureOffsets.length

/-! ### Value decoding (`Layer.decodeValue`) -/

/-- State of the value-decoding loop: cursor and the value seen so far. -/
structure ValueState where
  pos : Nat
  value : PropValue
deriving Repr, DecidableEq

/-- One iteration of the `decodeValue` loop: read a tag, decode the field
selected by its field number (1=string, 2=float, 3=double, 4=int64,
5=uint64, 6=sint64, 7=bool, anything else resets the value to null). -/
def valueStep (data : Bytes) (s : ValueState) : Option ValueState :=
  match readTag data s.pos with
  | none => none
  | some (fieldId, _, p1) =>
    if fieldId = 1 then (readBytesLen data p1).map (fun bp => ⟨bp.2, .str bp.1⟩)
    else if fieldId = 2 then (readFixed 4 data p1).map (fun bp => ⟨bp.2, .flt bp.1⟩)
    else if fieldId = 3 then (readFixed 8 data p1).map (fun bp => ⟨bp.2, .dbl bp.1⟩)
    else if fieldId = 4 then (readInt64 data p1).map (fun vp => ⟨vp.2, .intV vp.1⟩)
    else if fieldId = 5 then (readUint64 data p1).map (fun vp => ⟨vp.2, .uintV vp.1⟩)
    else if fieldId = 6 then (readSint64 data p1).map (fun vp => ⟨vp.2, .sintV vp.1⟩)
    else if fieldId = 7 then (readBool data p1).map (fun vp => ⟨vp.2, .boolV vp.1⟩)
    else some ⟨p1, .null⟩

/-- `decodeValue`: read the sub-message length, then iterate `valueStep`
until its end offset.  Returns the value and the final cursor. -/
def decodeValue (data : Bytes) (pos : Nat) : Option (PropValue × Nat) :=
  match readUint32 data pos with
  | none => none
  | some (len, p) =>
    match loopFuel (len + p) (valueStep data) ValueState.pos (len + 1) ⟨p, .null⟩ with
    | none => none
    | some s => some (s.value, s.pos)

/-! ### Feature decoding (the `Feature` constructor) -/

/-- State of the packed key/value index-pair loop (feature field 2). -/
structure PairState where
  pos : Nat
  props : List Entry
deriving Repr, DecidableEq

/-- One iteration of the pair loop: two uint32 indices, resolved against
the layer's key and value tables with no bounds check
(`keys[reader.uint32()]` / `values[reader.uint32()]`). -/
def pairStep (data : Bytes) (keys : List Bytes) (values : List PropValue)
    (s : PairState) : Option PairState :=
  match readUint32 data s.pos with
  | none => none
  | some (k, p1) =>
    match readUint32 data p1 with
    | none => none
    | some (v, p2) => some ⟨p2, s.props ++ [(keys[k]?, values[v]?)]⟩

/-- State of the feature-constructor loop. -/
structure FeatState where
  pos : Nat
  id : Option Int
  ftype : Nat
  props : List Entry
  geomOffset : Nat
deriving Repr, DecidableEq

/-- One iteration of the feature-constructor loop: field 1 is the id
(int64), field 2 the packed key/value pairs, field 3 the geometry type
(uint32), field 4 the geometry sub-message whose start offset is recorded
and which is skipped; other fields read nothing beyond the tag. -/
def featStep (data : Bytes) (keys : List Bytes) (values : List PropValue)
    (s : FeatState) : Option FeatState :=
  match readTag data s.pos with
  | none => none
  | some (fieldId, wire, p1) =>
    if fieldId = 1 then
      (readInt64 data p1).map (fun vp => { s with pos := vp.2, id := some vp.1 })
    else if fieldId = 2 then
      match readUint32 data p1 with
      | none => none
      | some (len, p2) =>
        match loopFuel (len + p2) (pairStep data keys values) PairState.pos
            (len + 1) ⟨p2, s.props⟩ with
        | none => none
        | some ps => some { s with pos := ps.pos, props := ps.props }
    else if fieldId = 3 then
      (readUint32 data p1).map (fun vp => { s with pos := vp.2, ftype := vp.1 })
    else if fieldId = 4 then
      (skipField data wire p1).map (fun p2 => { s with pos := p2, geomOffset := p1 })
    else some { s with pos := p1 }

/-- The `Feature` constructor: iterate `featStep` from `pos` until `end_`,
then package the decoded fields together with the layer's extent. -/
def decodeFeature (data : Bytes) (end_ : Nat) (keys : List Bytes)
    (values : List PropValue) (extent : Nat) (pos : Nat) : Option (Feature × Nat) :=
  match loopFuel end_ (featStep data keys values) FeatState.pos (end_ - pos + 1)
      ⟨pos, none, 0, [], 0⟩ with
  | none => none
  | some s => some (⟨s.id, s.ftype, s.props, s.geomOffset, extent⟩, s.pos)

/-! ### Geometry decoding (`Feature.loadGeometry`) -/

/-- State of the geometry command loop: cursor, pending command and repeat
count, running absolute coordinates, finished lines and the open line. -/
structure GeomState where
  pos : Nat
  command : Nat
  len : Int
  x : Int
  y : Int
  lines : List (List Point)
  line : Option (List Point)
deriving Repr, DecidableEq

/-- Body of one `loadGeometry` iteration once the pending command and
count are resolved: the count is decremented; MoveTo (1) and LineTo (2)
read a zigzag delta pair (MoveTo also pushes the open line and starts a
new one) and append the absolute point to the open line; ClosePath (7)
appends a copy of the open line's first point (dereferencing it, which
throws on an empty line); any other command reads nothing. -/
def geomExec (data : Bytes) (command : Nat) (len0 : Int) (p1 : Nat)
    (s : GeomState) : Option GeomState :=
  if command = 1 ∨ command = 2 then
    match readSint32 data p1 with
    | none => none
    | some (dx, p2) =>
      match readSint32 data p2 with
      | none => none
      | some (dy, p3) =>
        some ⟨p3, command, len0 - 1, s.x + dx, s.y + dy,
              (if command = 1 then
                 (match s.line with | some l => s.lines ++ [l] | none => s.lines)
               else s.lines),
              ((if command = 1 then some [] else s.line) |>.map
                 (fun l => l ++ [⟨s.x + dx, s.y + dy⟩]))⟩
  else if command = 7 then
    match s.line with
    | none => some ⟨p1, command, len0 - 1, s.x, s.y, s.lines, none⟩
    | some l =>
      match l.head? with
      | none => none
      | some p0 => some ⟨p1, command, len0 - 1, s.x, s.y, s.lines, some (l ++ [p0])⟩
  else some ⟨p1, command, len0 - 1, s.x, s.y, s.lines, s.line⟩

/-- One iteration of the `loadGeometry` loop: when the repeat count is
exhausted read the next command integer (low 3 bits command, remaining
bits the count), then run the body. -/
def geomStep (data : Bytes) (s : GeomState) : Option GeomState :=
  if s.len ≤ 0 then
    match readUint32 data s.pos with
    | none => none
    | some (cl, p1) => geomExec data (cl % 8) ((cl / 8 : Nat) : Int) p1 s
  else geomExec data s.command s.len s.pos s

/-- Strictly decreasing measure of the geometry loop: each iteration either
advances the cursor (dominant term) or decrements the pending count. -/
def geomMeasure (end_ : Nat) (s : GeomState) : Nat :=
  (end_ - s.pos) * 2 ^ 30 + s.len.toNat

/-- `feature.loadGeometry()` with an explicit incoming cursor position
(the shared reader's position left by whatever call ran before): the
method first reseeks to the recorded geometry offset, reads the
sub-message length, runs the command loop and finally pushes the still
open line.  Returns the decoded lines and the final cursor position. -/
def loadGeometryWith (data : Bytes) (f : Feature) (callerPos : Nat) :
    Option (List (List Point)) × Nat :=
  let _ := callerPos
  let pos := f.geomOffset
  match readUint32 data pos with
  | none => (none, pos)
  | some (len, p) =>
    let end_ := len + p
    let s0 : GeomState := ⟨p, 1, 0, 0, 0, [], none⟩
    match loopFuel end_ (geomStep data) GeomState.pos (geomMeasure end_ s0 + 1) s0 with
    | none => (none, p)
    | some s =>
      (some (match s.line with | some l => s.lines ++ [l] | none => s.lines), s.pos)

/-- `feature.loadGeometry()` as observed by a caller (result only). -/
def Feature.loadGeometry (data : Bytes) (f : Feature) : Option (List (List Point)) :=
  (loadGeometryWith data f 0).1

/-- JavaScript `Number.MAX_SAFE_INTEGER`. -/
def maxSafeInteger : Int := 2 ^ 53 - 1

/-- State of the bbox command loop. -/
structure BboxState where
  pos : Nat
  command : Nat
  count : Int
  x : Int
  y : Int
  xMin : Int
  xMax : Int
  yMin : Int
  yMax : Int
deriving Repr, DecidableEq

/-- Body of one `bbox` iteration once the pending command and count are
resolved: like the geometry body but only the running min/max of the
absolute coordinates are tracked, and every command other than
MoveTo/LineTo reads nothing. -/
def bboxExec (data : Bytes) (command : Nat) (count0 : Int) (p1 : Nat)
    (s : BboxState) : Option BboxState :=
  if command = 1 ∨ command = 2 then
    match readSint32 data p1 with
    | none => none
    | some (dx, p2) =>
      match readSint32 data p2 with
      | none => none
      | some (dy, p3) =>
        some ⟨p3, command, count0 - 1, s.x + dx, s.y + dy,
              min (s.x + dx) s.xMin, max (s.x + dx) s.xMax,
              min (s.y + dy) s.yMin, max (s.y + dy) s.yMax⟩
  else some ⟨p1, command, count0 - 1, s.x, s.y, s.xMin, s.xMax, s.yMin, s.yMax⟩

/-- One iteration of the `bbox` loop. -/
def bboxStep (data : Bytes) (s : BboxState) : Option BboxState :=
  if s.count ≤ 0 then
    match readUint32 data s.pos with
    | none => none
    | some (cl, p1) => bboxExec data (cl % 8) ((cl / 8 : Nat) : Int) p1 s
  else bboxExec data s.command s.count s.pos s

/-- Measure of the bbox loop, as for the geometry loop. -/
def bboxMeasure (end_ : Nat) (s : BboxState) : Nat :=
  (end_ - s.pos) * 2 ^ 30 + s.count.toNat

/-- `feature.bbox()` with an explicit incoming cursor position; reseeks to
the geometry offset and returns `[xMin, yMin, xMax, yMax]` plus the final
cursor position. -/
def bboxWith (data : Bytes) (f : Feature) (callerPos : Nat) :
    Option (Int × Int × Int × Int) × Nat :=
  let _ := callerPos
  let pos := f.geomOffset
  match readUint32 data pos with
  | none => (none, pos)
  | some (len, p) =>
    let end_ := len + p
    let s0 : BboxState :=
      ⟨p, 0, 0, 0, 0, maxSafeInteger, -maxSafeInteger, maxSafeInteger, -maxSafeInteger⟩
    match loopFuel end_ (bboxStep data) BboxState.pos (bboxMeasure end_ s0 + 1) s0 with
    | none => (none, p)
    | some s => (some (s.xMin, s.yMin, s.xMax, s.yMax), s.pos)

/-! ### Ring classification (`classifyRings`, `signedArea`) -/

/-- Shoelace signed area of a ring (`signedArea`): the sum over index pairs
`(i, j)` where `j` is the previous index with wrap-around. -/
def signedArea (ring : List Point) : Int :=
  (List.range ring.length).foldl
    (fun sum i =>
      let j := if i = 0 then ring.length - 1 else i - 1
      let point1 := ring.getD i ⟨0, 0⟩
      let point2 := ring.getD j ⟨0, 0⟩
      sum + (point2.x - point1.x) * (point1.y + point2.y))
    0

/-- The `classifyRings` loop: walk the rings with the accumulated polygon
list and the current polygon, skipping zero areas, starting a new polygon
on positive area (flushing the current one) and appending negative-area
rings to the current polygon when it exists. -/
def classifyLoop : List (List Point) → List (List (List Point)) →
    Option (List (List Point)) → List (List (List Point)) × Option (List (List Point))
  | [], polygons, polygon => (polygons, polygon)
  | ring :: rest, polygons, polygon =>
    let area := signedArea ring
    if area = 0 then classifyLoop rest polygons polygon
    else if 0 < area then
      classifyLoop rest
        (match polygon with | some p => polygons ++ [p] | none => polygons)
        (some [ring])
    else classifyLoop rest polygons (polygon.map (fun p => p ++ [ring]))

/-- `classifyRings`: inputs with at most one ring are wrapped untested;
otherwise run the loop and flush the last open polygon. -/
def classifyRings (rings : List (List Point)) : List (List (List Point)) :=
  if rings.length ≤ 1 then [rings]
  else
    match (classifyLoop rings [] none).2 with
    | some p => (classifyLoop rings [] none).1 ++ [p]
    | none => (classifyLoop rings [] none).1

/-- SPEC-side restatement of one classification step, following §4.7 of
the spec word for word: compute the ring's signed area; drop zero areas
entirely; a positive area starts a new polygon (pushing the current one);
a negative area is appended to the current polygon's ring list, and a
dangling hole with no current polygon is discarded rather than appended.
Used only to compare with `classifyRings`. -/
def classifySpecStep (acc : List (List (List Point)) × Option (List (List Point)))
    (ring : List Point) : List (List (List Point)) × Option (List (List Point)) :=
  if signedArea ring = 0 then acc
  else if 0 < signedArea ring then
    ((match acc.2 with | some p => acc.1 ++ [p] | none => acc.1), some [ring])
  else (acc.1, acc.2.map (fun p => p ++ [ring]))

/-- SPEC-side restatement of ring classification over a whole input: fold
the step over the rings and flush the last open polygon. -/
def classifyRingsSpec (rings : List (List Point)) : List (List (List Point)) :=
  match (rings.foldl classifySpecStep ([], none)).2 with
  | some p => (rings.foldl classifySpecStep ([], none)).1 ++ [p]
  | none => (rings.foldl classifySpecStep ([], none)).1

/-! ### Geometry accessors (`asPoints` / `asLines` / `asPolygons`)

Each accessor can have three observable outcomes in the source: a thrown
decode error, `null`, or a value.  They are modelled as
`Option (Option _)`: the outer `none` is the thrown error and the inner
`none` is `null`. -/

/-- `feature.asPoints()`: always decodes the geometry, maps each line to
its first element (which is `undefined`, here `none`, on an empty line)
and returns it only when the type is POINT (1). -/
def Feature.asPoints (data : Bytes) (f : Feature) :
    Option (Option (List (Option Point))) :=
  match Feature.loadGeometry data f with
  | none => none
  | some lines =>
    some (if f.ftype = 1 then some (lines.map List.head?) else none)

/-- `feature.asLines()`: the decoded geometry when the type is
LINESTRING (2), otherwise `null` without touching the geometry. -/
def Feature.asLines (data : Bytes) (f : Feature) :
    Option (Option (List (List Point))) :=
  if f.ftype = 2 then
    match Feature.loadGeometry data f with
    | none => none
    | some lines => some (some lines)
  else some none

/-- `feature.asPolygons()`: the classified rings when the type is
POLYGON (3), otherwise `null` without touching the geometry. -/
def Feature.asPolygons (data : Bytes) (f : Feature) :
    Option (Option (List (List (List Point)))) :=
  if f.ftype = 3 then
    match Feature.loadGeometry data f with
    | none => none
    | some lines => some (some (classifyRings lines))
  else some none

/-! ### GeoJSON projection (`Feature.toGeoJSON`) -/

/-- GeoJSON coordinate values: IEEE doubles nested in arrays. -/
inductive GJ where
  | num : Float → GJ
  | arr : List GJ → GJ

/-- The assembled GeoJSON feature object. -/
structure GeoJSONFeature where
  gtype : String
  coordinates : GJ
  properties : List Entry
  id : Option Int

/-- JavaScript `Math.PI`. -/
def jsPi : Float := 3.141592653589793

/-- The `project` closure of `toGeoJSON`: inverse spherical Mercator from
local tile coordinates to a `[longitude, latitude]` pair. -/
def projectPoints (x0 y0 size : Float) (pts : List Point) : List GJ :=
  pts.map fun p =>
    let y2 : Float := 180 - ((Float.ofInt p.y + y0) * 360) / size
    GJ.arr [GJ.num (((Float.ofInt p.x + x0) * 360) / size - 180),
            GJ.num ((360 / jsPi) * Float.atan (Float.exp ((y2 * jsPi) / 180)) - 90)]

/-- All-or-nothing sequencing of the possibly-`undefined` first points
produced by `asPoints` (`project` dereferences each point, so a single
`undefined` entry throws). -/
def seqPoints : List (Option Point) → Option (List Point)
  | [] => some []
  | none :: _ => none
  | some p :: rest => (seqPoints rest).map (fun l => p :: l)

/-- `feature.toGeoJSON(x, y, zoom)`: switch on the geometry type to build
the coordinates (no case matches UNKNOWN or unrecognized codes, leaving
them undefined, here `none`), then unconditionally test
`coordinates.length == 1` — which dereferences the missing value and
throws for an unhandled type — unwrapping singletons and otherwise
prefixing the type with Multi. -/
def Feature.toGeoJSON (data : Bytes) (f : Feature) (x y : Int) (zoom : Nat) :
    Option GeoJSONFeature :=
  let size : Float := Float.ofNat f.extent * Float.ofNat (2 ^ zoom)
  let x0 : Float := Float.ofNat f.extent * Float.ofInt x
  let y0 : Float := Float.ofNat f.extent * Float.ofInt y
  let branch : Option (String × List GJ) :=
    if f.ftype = 1 then
      match Feature.asPoints data f with
      | some (some pts) =>
        match seqPoints pts with
        | some ps =>
          some ("Point", (projectPoints x0 y0 size ps).map (fun c => c))
        | none => none
      | _ => none
    else if f.ftype = 2 then
      match Feature.asLines data f with
      | some (some lines) =>
        some ("LineString", lines.map (fun l => GJ.arr (projectPoints x0 y0 size l)))
      | _ => none
    else if f.ftype = 3 then
      match Feature.asPolygons data f with
      | some (some polys) =>
        some ("Polygon",
          polys.map (fun poly =>
            GJ.arr (poly.map (fun ring => GJ.arr (projectPoints x0 y0 size ring)))))
      | _ => none
    else none
  match branch with
  | none => none
  | some (ty, coords) =>
    match coords with
    | [c] => some ⟨ty, c, f.props, f.id⟩
    | _ => some ⟨"Multi" ++ ty, GJ.arr coords, f.props, f.id⟩

/-! ### Layer decoding (the `Layer` constructor and `Layer.feature`) -/

/-- State of the layer-constructor loop. -/
structure LayerState where
  pos : Nat
  name : Bytes
  version : Nat
  extent : Nat
  featureOffsets : List Nat
  keys : List Bytes
  values : List PropValue
deriving Repr, DecidableEq

/-- One iteration of the layer-constructor loop: field 15 version, field 1
name, field 5 extent, field 2 a feature sub-message whose current position
is recorded before skipping it, field 3 a key, field 4 a value; other
fields read nothing beyond the tag. -/
def layerStep (data : Bytes) (s : LayerState) : Option LayerState :=
  match readTag data s.pos with
  | none => none
  | some (fieldId, wire, p1) =>
    if fieldId = 15 then
      (readUint32 data p1).map (fun vp => { s with pos := vp.2, version := vp.1 })
    else if fieldId = 1 then
      (readBytesLen data p1).map (fun bp => { s with pos := bp.2, name := bp.1 })
    else if fieldId = 5 then
      (readUint32 data p1).map (fun vp => { s with pos := vp.2, extent := vp.1 })
    else if fieldId = 2 then
      (skipField data wire p1).map
        (fun p2 => { s with pos := p2, featureOffsets := s.featureOffsets ++ [p1] })
    else if fieldId = 3 then
      (readBytesLen data p1).map (fun bp => { s with pos := bp.2, keys := s.keys ++ [bp.1] })
    else if fieldId = 4 then
      (decodeValue data p1).map
        (fun vp => { s with pos := vp.2, values := s.values ++ [vp.1] })
    else some { s with pos := p1 }

/-- The `Layer` constructor: iterate `layerStep` from `pos` until `end_`.
Returns the layer and the final cursor position. -/
def decodeLayer (data : Bytes) (end_ : Nat) (pos : Nat) : Option (Layer × Nat) :=
  match loopFuel end_ (layerStep data) LayerState.pos (end_ - pos + 1)
      ⟨pos, [], 0, 0, [], [], []⟩ with
  | none => none
  | some s => some (⟨s.name, s.version, s.extent, s.featureOffsets, s.keys, s.values⟩, s.pos)

/-- Decode failure modes surfaced by `Layer.feature`: the explicit
out-of-bounds index error, or a wire-format error thrown while decoding. -/
inductive DecodeErr where
  | outOfBounds
  | format
deriving Repr, DecidableEq

/-- Seek to a recorded feature offset, read the length prefix and run the
`Feature` constructor bounded to that sub-message. -/
def featureAt (data : Bytes) (ly : Layer) (pos : Nat) : Except DecodeErr Feature :=
  match readUint32 data pos with
  | none => .error .format
  | some (len, p) =>
    match decodeFeature data (len + p) ly.keys ly.values ly.extent p with
    | none => .error .format
    | some fp => .ok fp.1

/-- `layer.feature(index)`: an index below 0 or at/above the offset count
throws the out-of-bounds error; otherwise decode at the recorded offset. -/
def Layer.feature (data : Bytes) (ly : Layer) (index : Int) : Except DecodeErr Feature :=
  if index < 0 ∨ (ly.featureOffsets.length : Int) ≤ index then .error .outOfBounds
  else featureAt data ly (ly.featureOffsets.getD index.toNat 0)

/-! ### Tile decoding (the `VectorTile` constructor) -/

/-- JavaScript object assignment `layers[name] = layer`: replace the entry
with the same name or append a new one. -/
def insertLayer : List (Bytes × Layer) → Bytes → Layer → List (Bytes × Layer)
  | [], nm, ly => [(nm, ly)]
  | (k, v) :: rest, nm, ly =>
    if k = nm then (k, ly) :: rest else (k, v) :: insertLayer rest nm ly

/-- State of the tile-constructor loop: cursor and the layer map. -/
structure TileState where
  pos : Nat
  layers : List (Bytes × Layer)
deriving Repr, DecidableEq

/-- One iteration of the `VectorTile` constructor loop: discard a uint32
(the tag), read the layer length, run the `Layer` constructor bounded to
it, and keep the layer only when `layer.length` is nonzero. -/
def tileStep (data : Bytes) (s : TileState) : Option TileState :=
  match readUint32 data s.pos with
  | none => none
  | some (_, p1) =>
    match readUint32 data p1 with
    | none => none
    | some (len, p2) =>
      match decodeLayer data (len + p2) p2 with
      | none => none
      | some (ly, p3) =>
        some ⟨p3, if ly.featureOffsets.length ≠ 0 then insertLayer s.layers ly.name ly
                  else s.layers⟩

/-- The `VectorTile` constructor: iterate `tileStep` over the whole buffer
and return the retained layers. -/
def decodeTile (data : Bytes) : Option (List (Bytes × Layer)) :=
  match loopFuel data.length (tileStep data) TileState.pos (data.length + 1) ⟨0, []⟩ with
  | none => none
  | some s => some s.layers

deriving instance DecidableEq for Except

/-! ## Lemmas

First, every reader primitive strictly advances the cursor when it
succeeds; then generic facts about `loopFuel`; then how each loop's
measure evolves. -/

theorem varintCore_consumed (l : List Nat) (vn : Nat × Nat)
    (h : varintCore l = some vn) : 1 ≤ vn.2 := by
  cases l with
  | nil => simp [varintCore] at h
  | cons b rest =>
    unfold varintCore at h
    split at h
    · cases h; simp
    · cases hrec : varintCore rest with
      | none => rw [hrec] at h; cases h
      | some vm => rw [hrec] at h; cases h; simp

theorem readVarint_lt (data : Bytes) (pos : Nat) (vp : Nat × Nat)
    (h : readVarint data pos = some vp) : pos < vp.2 := by
  unfold readVarint at h
  cases hc : varintCore (data.drop pos) with
  | none => rw [hc] at h; cases h
  | some vn =>
    rw [hc] at h
    cases h
    have := varintCore_consumed _ _ hc
    simp
    omega

theorem readUint32_lt (data : Bytes) (pos : Nat) (vp : Nat × Nat)
    (h : readUint32 data pos = some vp) : pos < vp.2 := by
  unfold readUint32 at h
  cases hv : readVarint data pos with
  | none => rw [hv] at h; cases h
  | some w => rw [hv] at h; cases h; exact readVarint_lt data pos w hv

theorem readUint32_val_lt (data : Bytes) (pos : Nat) (vp : Nat × Nat)
    (h : readUint32 data pos = some vp) : vp.1 < 2 ^ 32 := by
  unfold readUint32 at h
  cases hv : readVarint data pos with
  | none => rw [hv] at h; cases h
  | some w =>
    rw [hv] at h; cases h
    exact Nat.mod_lt _ (by norm_num)

theorem readSint32_lt (data : Bytes) (pos : Nat) (vp : Int × Nat)
    (h : readSint32 data pos = some vp) : pos < vp.2 := by
  unfold readSint32 at h
  cases hv : readVarint data pos with
  | none => rw [hv] at h; cases h
  | some w => rw [hv] at h; cases h; exact readVarint_lt data pos w hv

theorem readInt64_lt (data : Bytes) (pos : Nat) (vp : Int × Nat)
    (h : readInt64 data pos = some vp) : pos < vp.2 := by
  unfold readInt64 at h
  cases hv : readVarint data pos with
  | none => rw [hv] at h; cases h
  | some w => rw [hv] at h; cases h; exact readVarint_lt data pos w hv

theorem readUint64_lt (data : Bytes) (pos : Nat) (vp : Nat × Nat)
    (h : readUint64 data pos = some vp) : pos < vp.2 := by
  unfold readUint64 at h
  cases hv : readVarint data pos with
  | none => rw [hv] at h; cases h
  | some w => rw [hv] at h; cases h; exact readVarint_lt data pos w hv

theorem readSint64_lt (data : Bytes) (pos : Nat) (vp : Int × Nat)
    (h : readSint64 data pos = some vp) : pos < vp.2 := by
  unfold readSint64 at h
  cases hv : readVarint data pos with
  | none => rw [hv] at h; cases h
  | some w => rw [hv] at h; cases h; exact readVarint_lt data pos w hv

theorem readBool_lt (data : Bytes) (pos : Nat) (vp : Bool × Nat)
    (h : readBool data pos = some vp) : pos < vp.2 := by
  unfold readBool at h
  cases hv : readVarint data pos with
  | none => rw [hv] at h; cases h
  | some w => rw [hv] at h; cases h; exact readVarint_lt data pos w hv

theorem readBytesLen_lt (data : Bytes) (pos : Nat) (bp : Bytes × Nat)
    (h : readBytesLen data pos = some bp) : pos < bp.2 := by
  unfold readBytesLen at h
  cases hv : readUint32 data pos with
  | none => simp only [hv] at h; exact Option.noConfusion h
  | some w =>
    obtain ⟨len, p⟩ := w
    simp only [hv] at h
    split at h
    · injection h with h2
      rw [← h2]
      exact lt_of_lt_of_le (readUint32_lt data pos (len, p) hv) (Nat.le_add_right _ _)
    · cases h

theorem readFixed_lt (n : Nat) (data : Bytes) (pos : Nat) (bp : Bytes × Nat)
    (hn : 0 < n) (h : readFixed n data pos = some bp) : pos < bp.2 := by
  unfold readFixed at h
  split at h
  · cases h; simp; omega
  · cases h

theorem readTag_lt (data : Bytes) (pos : Nat) (t : Nat × Nat × Nat)
    (h : readTag data pos = some t) : pos < t.2.2 := by
  unfold readTag at h
  cases hv : readUint32 data pos with
  | none => simp only [hv] at h; exact Option.noConfusion h
  | some w =>
    obtain ⟨v, p⟩ := w
    simp only [hv] at h
    split at h
    · cases h
    · injection h with h2
      rw [← h2]
      exact readUint32_lt data pos (v, p) hv

theorem skipField_lt (data : Bytes) (wire : Nat) (pos p' : Nat)
    (h : skipField data wire pos = some p') : pos < p' := by
  unfold skipField at h
  by_cases h0 : wire = 0
  · rw [if_pos h0] at h
    cases hv : readVarint data pos with
    | none => simp only [hv, Option.map_none'] at h; exact Option.noConfusion h
    | some w =>
      simp only [hv, Option.map_some', Option.some.injEq] at h
      have := readVarint_lt data pos w hv
      omega
  rw [if_neg h0] at h
  by_cases h1 : wire = 1
  · rw [if_pos h1] at h
    split at h
    · injection h with h2; omega
    · cases h
  rw [if_neg h1] at h
  by_cases h2 : wire = 2
  · rw [if_pos h2] at h
    cases hv : readUint32 data pos with
    | none => simp only [hv] at h; exact Option.noConfusion h
    | some w =>
      obtain ⟨len, p⟩ := w
      simp only [hv] at h
      split at h
      · injection h with h3
        have h4 : pos < p := readUint32_lt data pos (len, p) hv
        omega
      · cases h
  rw [if_neg h2] at h
  by_cases h5 : wire = 5
  · rw [if_pos h5] at h
    split at h
    · injection h with h3; omega
    · cases h
  · rw [if_neg h5] at h; cases h

/-- Success of a bounded loop propagates any invariant preserved by its
step. -/
theorem loopFuel_inv {σ : Type} (end_ : Nat) (step : σ → Option σ) (getPos : σ → Nat)
    (P : σ → Prop) (hstep : ∀ s s', step s = some s' → P s → P s') :
    ∀ fuel s s', loopFuel end_ step getPos fuel s = some s' → P s → P s' := by
  intro fuel
  induction fuel with
  | zero => intro s s' h; simp [loopFuel] at h
  | succ f ih =>
    intro s s' h hP
    unfold loopFuel at h
    split at h
    · cases hs : step s with
      | none => rw [hs] at h; cases h
      | some s1 => rw [hs] at h; exact ih s1 s' h (hstep s s1 hs hP)
    · injection h with h2
      exact h2 ▸ hP

/-- The loop's final position is at least its starting position whenever
the step is monotone. -/
theorem loopFuel_pos_le {σ : Type} (end_ : Nat) (step : σ → Option σ) (getPos : σ → Nat)
    (hstep : ∀ s s', step s = some s' → getPos s ≤ getPos s')
    (fuel : Nat) (s s' : σ) (h : loopFuel end_ step getPos fuel s = some s') :
    getPos s ≤ getPos s' :=
  loopFuel_inv end_ step getPos (fun t => getPos s ≤ getPos t)
    (fun a b hab hle => le_trans hle (hstep a b hab)) fuel s s' h (le_refl _)

/-- Fuel irrelevance: when each in-bounds step strictly decreases a
natural measure, any fuel exceeding the measure computes the same result
as the canonical fuel.  This is the termination argument for every decode
loop. -/
theorem loopFuel_measure_eq {σ : Type} (end_ : Nat) (step : σ → Option σ) (getPos : σ → Nat)
    (μ : σ → Nat) (hstep : ∀ s s', getPos s < end_ → step s = some s' → μ s' < μ s) :
    ∀ fuel s, μ s < fuel →
      loopFuel end_ step getPos fuel s = loopFuel end_ step getPos (μ s + 1) s := by
  intro fuel
  induction fuel using Nat.strong_induction_on with
  | _ fuel ih =>
    intro s hμ
    cases fuel with
    | zero => omega
    | succ f =>
      show (if getPos s < end_ then
              match step s with
              | none => none
              | some s' => loopFuel end_ step getPos f s'
            else some s) =
           (if getPos s < end_ then
              match step s with
              | none => none
              | some s' => loopFuel end_ step getPos (μ s) s'
            else some s)
      by_cases hp : getPos s < end_
      · rw [if_pos hp, if_pos hp]
        cases hs : step s with
        | none => rfl
        | some s1 =>
          have hlt := hstep s s1 hp hs
          have h1 := ih f (Nat.lt_succ_self f) s1 (by omega)
          have h2 := ih (μ s) (by omega) s1 (by omega)
          simp only [h1, h2]
      · rw [if_neg hp, if_neg hp]

/-! ### Advancement of each scan step -/

theorem valueStep_lt (data : Bytes) (s s' : ValueState)
    (h : valueStep data s = some s') : s.pos < s'.pos := by
  unfold valueStep at h
  cases htag : readTag data s.pos with
  | none => rw [htag] at h; cases h
  | some t =>
    obtain ⟨fieldId, wire, p1⟩ := t
    simp only [htag] at h
    have htp : s.pos < p1 := readTag_lt data s.pos (fieldId, wire, p1) htag
    split_ifs at h
    · rw [Option.map_eq_some'] at h
      obtain ⟨a, ha, hfa⟩ := h
      rw [← hfa]
      exact lt_trans htp (readBytesLen_lt data p1 a ha)
    · rw [Option.map_eq_some'] at h
      obtain ⟨a, ha, hfa⟩ := h
      rw [← hfa]
      exact lt_trans htp (readFixed_lt 4 data p1 a (by norm_num) ha)
    · rw [Option.map_eq_some'] at h
      obtain ⟨a, ha, hfa⟩ := h
      rw [← hfa]
      exact lt_trans htp (readFixed_lt 8 data p1 a (by norm_num) ha)
    · rw [Option.map_eq_some'] at h
      obtain ⟨a, ha, hfa⟩ := h
      rw [← hfa]
      exact lt_trans htp (readInt64_lt data p1 a ha)
    · rw [Option.map_eq_some'] at h
      obtain ⟨a, ha, hfa⟩ := h
      rw [← hfa]
      exact lt_trans htp (readUint64_lt data p1 a ha)
    · rw [Option.map_eq_some'] at h
      obtain ⟨a, ha, hfa⟩ := h
      rw [← hfa]
      exact lt_trans htp (readSint64_lt data p1 a ha)
    · rw [Option.map_eq_some'] at h
      obtain ⟨a, ha, hfa⟩ := h
      rw [← hfa]
      exact lt_trans htp (readBool_lt data p1 a ha)
    · injection h with h2
      rw [← h2]
      exact htp

theorem decodeValue_lt (data : Bytes) (pos : Nat) (vp : PropValue × Nat)
    (h : decodeValue data pos = some vp) : pos < vp.2 := by
  unfold decodeValue at h
  cases hr : readUint32 data pos with
  | none => simp only [hr] at h; exact Option.noConfusion h
  | some w =>
    obtain ⟨len, p⟩ := w
    simp only [hr] at h
    cases hl : loopFuel (len + p) (valueStep data) ValueState.pos (len + 1) ⟨p, .null⟩ with
    | none => rw [hl] at h; cases h
    | some s1 =>
      rw [hl] at h
      injection h with h2
      have hm : p ≤ s1.pos :=
        loopFuel_pos_le _ _ _ (fun a b hab => le_of_lt (valueStep_lt data a b hab)) _ _ _ hl
      have h1 : pos < p := readUint32_lt data pos (len, p) hr
      rw [← h2]
      show pos < s1.pos
      omega

theorem pairStep_lt (data : Bytes) (keys : List Bytes) (values : List PropValue)
    (s s' : PairState) (h : pairStep data keys values s = some s') : s.pos < s'.pos := by
  unfold pairStep at h
  cases h1 : readUint32 data s.pos with
  | none => rw [h1] at h; cases h
  | some w1 =>
    obtain ⟨k, p1⟩ := w1
    simp only [h1] at h
    cases h2 : readUint32 data p1 with
    | none => rw [h2] at h; cases h
    | some w2 =>
      obtain ⟨v, p2⟩ := w2
      simp only [h2] at h
      injection h with h3
      rw [← h3]
      show s.pos < p2
      have := readUint32_lt data s.pos (k, p1) h1
      have := readUint32_lt data p1 (v, p2) h2
      omega

theorem featStep_lt (data : Bytes) (keys : List Bytes) (values : List PropValue)
    (s s' : FeatState) (h : featStep data keys values s = some s') : s.pos < s'.pos := by
  unfold featStep at h
  cases htag : readTag data s.pos with
  | none => rw [htag] at h; cases h
  | some t =>
    obtain ⟨fieldId, wire, p1⟩ := t
    simp only [htag] at h
    have htp : s.pos < p1 := readTag_lt data s.pos (fieldId, wire, p1) htag
    split_ifs at h
    · rw [Option.map_eq_some'] at h
      obtain ⟨a, ha, hfa⟩ := h
      rw [← hfa]
      exact lt_trans htp (readInt64_lt data p1 a ha)
    · cases hr : readUint32 data p1 with
      | none => rw [hr] at h; cases h
      | some w =>
        obtain ⟨len, p2⟩ := w
        simp only [hr] at h
        cases hl : loopFuel (len + p2) (pairStep data keys values) PairState.pos
            (len + 1) ⟨p2, s.props⟩ with
        | none => rw [hl] at h; cases h
        | some ps =>
          rw [hl] at h
          injection h with h2
          rw [← h2]
          show s.pos < ps.pos
          have hm : p2 ≤ ps.pos :=
            loopFuel_pos_le _ _ _
              (fun a b hab => le_of_lt (pairStep_lt data keys values a b hab)) _ _ _ hl
          have := readUint32_lt data p1 (len, p2) hr
          omega
    · rw [Option.map_eq_some'] at h
      obtain ⟨a, ha, hfa⟩ := h
      rw [← hfa]
      exact lt_trans htp (readUint32_lt data p1 a ha)
    · rw [Option.map_eq_some'] at h
      obtain ⟨a, ha, hfa⟩ := h
      rw [← hfa]
      exact lt_trans htp (skipField_lt data wire p1 a ha)
    · injection h with h2
      rw [← h2]
      exact htp

theorem layerStep_lt (data : Bytes) (s s' : LayerState)
    (h : layerStep data s = some s') : s.pos < s'.pos := by
  unfold layerStep at h
  cases htag : readTag data s.pos with
  | none => rw [htag] at h; cases h
  | some t =>
    obtain ⟨fieldId, wire, p1⟩ := t
    simp only [htag] at h
    have htp : s.pos < p1 := readTag_lt data s.pos (fieldId, wire, p1) htag
    split_ifs at h
    · rw [Option.map_eq_some'] at h
      obtain ⟨a, ha, hfa⟩ := h
      rw [← hfa]
      exact lt_trans htp (readUint32_lt data p1 a ha)
    · rw [Option.map_eq_some'] at h
      obtain ⟨a, ha, hfa⟩ := h
      rw [← hfa]
      exact lt_trans htp (readBytesLen_lt data p1 a ha)
    · rw [Option.map_eq_some'] at h
      obtain ⟨a, ha, hfa⟩ := h
      rw [← hfa]
      exact lt_trans htp (readUint32_lt data p1 a ha)
    · rw [Option.map_eq_some'] at h
      obtain ⟨a, ha, hfa⟩ := h
      rw [← hfa]
      exact lt_trans htp (skipField_lt data wire p1 a ha)
    · rw [Option.map_eq_some'] at h
      obtain ⟨a, ha, hfa⟩ := h
      rw [← hfa]
      exact lt_trans htp (readBytesLen_lt data p1 a ha)
    · rw [Option.map_eq_some'] at h
      obtain ⟨a, ha, hfa⟩ := h
      rw [← hfa]
      exact lt_trans htp (decodeValue_lt data p1 a ha)
    · injection h with h2
      rw [← h2]
      exact htp

theorem decodeLayer_le (data : Bytes) (end_ pos : Nat) (lp : Layer × Nat)
    (h : decodeLayer data end_ pos = some lp) : pos ≤ lp.2 := by
  unfold decodeLayer at h
  cases hl : loopFuel end_ (layerStep data) LayerState.pos (end_ - pos + 1)
      ⟨pos, [], 0, 0, [], [], []⟩ with
  | none => rw [hl] at h; cases h
  | some s1 =>
    rw [hl] at h
    injection h with h2
    rw [← h2]
    exact loopFuel_pos_le _ _ _
      (fun a b hab => le_of_lt (layerStep_lt data a b hab)) _ _ _ hl

theorem tileStep_lt (data : Bytes) (s s' : TileState)
    (h : tileStep data s = some s') : s.pos < s'.pos := by
  unfold tileStep at h
  cases h1 : readUint32 data s.pos with
  | none => rw [h1] at h; cases h
  | some w1 =>
    obtain ⟨v1, p1⟩ := w1
    simp only [h1] at h
    cases h2 : readUint32 data p1 with
    | none => rw [h2] at h; cases h
    | some w2 =>
      obtain ⟨len, p2⟩ := w2
      simp only [h2] at h
      cases h3 : decodeLayer data (len + p2) p2 with
      | none => rw [h3] at h; cases h
      | some lp =>
        obtain ⟨ly, p3⟩ := lp
        simp only [h3] at h
        injection h with h4
        rw [← h4]
        show s.pos < p3
        have hm : p2 ≤ p3 := decodeLayer_le data (len + p2) p2 (ly, p3) h3
        have := readUint32_lt data s.pos (v1, p1) h1
        have := readUint32_lt data p1 (len, p2) h2
        omega

/-! ### Measure decrease of the command loops -/

theorem geomExec_facts (data : Bytes) (command : Nat) (len0 : Int) (p1 : Nat)
    (s s' : GeomState) (h : geomExec data command len0 p1 s = some s') :
    p1 ≤ s'.pos ∧ s'.len = len0 - 1 := by
  unfold geomExec at h
  by_cases hc : command = 1 ∨ command = 2
  · rw [if_pos hc] at h
    cases h1 : readSint32 data p1 with
    | none => rw [h1] at h; cases h
    | some w1 =>
      obtain ⟨dx, p2⟩ := w1
      simp only [h1] at h
      cases h2 : readSint32 data p2 with
      | none => rw [h2] at h; cases h
      | some w2 =>
        obtain ⟨dy, p3⟩ := w2
        simp only [h2] at h
        injection h with h3
        rw [← h3]
        refine ⟨?_, rfl⟩
        have := readSint32_lt data p1 (dx, p2) h1
        have := readSint32_lt data p2 (dy, p3) h2
        show p1 ≤ p3
        omega
  rw [if_neg hc] at h
  by_cases h7 : command = 7
  · rw [if_pos h7] at h
    cases hl : s.line with
    | none =>
      simp only [hl] at h
      injection h with h3
      rw [← h3]
      exact ⟨le_refl _, rfl⟩
    | some l =>
      simp only [hl] at h
      cases hh : l.head? with
      | none => simp only [hh] at h; exact Option.noConfusion h
      | some p0 =>
        simp only [hh] at h
        injection h with h3
        rw [← h3]
        exact ⟨le_refl _, rfl⟩
  · rw [if_neg h7] at h
    injection h with h3
    rw [← h3]
    exact ⟨le_refl _, rfl⟩

theorem geomStep_measure (data : Bytes) (end_ : Nat) (s s' : GeomState)
    (hp : s.pos < end_) (h : geomStep data s = some s') :
    geomMeasure end_ s' < geomMeasure end_ s := by
  have hC : (2 : Nat) ^ 30 = 1073741824 := by norm_num
  unfold geomStep at h
  split at h
  · cases hr : readUint32 data s.pos with
    | none => rw [hr] at h; cases h
    | some w =>
      obtain ⟨cl, p1⟩ := w
      simp only [hr] at h
      obtain ⟨hle, hlen⟩ := geomExec_facts data (cl % 8) ((cl / 8 : Nat) : Int) p1 s s' h
      have h1 : s.pos < p1 := readUint32_lt data s.pos (cl, p1) hr
      have h2 : cl < 2 ^ 32 := readUint32_val_lt data s.pos (cl, p1) hr
      simp only [geomMeasure, hC]
      have h3 : s'.len.toNat ≤ cl / 8 := by omega
      omega
  · obtain ⟨hle, hlen⟩ := geomExec_facts data s.command s.len s.pos s s' h
    simp only [geomMeasure, hC]
    omega

theorem bboxExec_facts (data : Bytes) (command : Nat) (count0 : Int) (p1 : Nat)
    (s s' : BboxState) (h : bboxExec data command count0 p1 s = some s') :
    p1 ≤ s'.pos ∧ s'.count = count0 - 1 := by
  unfold bboxExec at h
  by_cases hc : command = 1 ∨ command = 2
  · rw [if_pos hc] at h
    cases h1 : readSint32 data p1 with
    | none => rw [h1] at h; cases h
    | some w1 =>
      obtain ⟨dx, p2⟩ := w1
      simp only [h1] at h
      cases h2 : readSint32 data p2 with
      | none => rw [h2] at h; cases h
      | some w2 =>
        obtain ⟨dy, p3⟩ := w2
        simp only [h2] at h
        injection h with h3
        rw [← h3]
        refine ⟨?_, rfl⟩
        have := readSint32_lt data p1 (dx, p2) h1
        have := readSint32_lt data p2 (dy, p3) h2
        show p1 ≤ p3
        omega
  · rw [if_neg hc] at h
    injection h with h3
    rw [← h3]
    exact ⟨le_refl _, rfl⟩

theorem bboxStep_measure (data : Bytes) (end_ : Nat) (s s' : BboxState)
    (hp : s.pos < end_) (h : bboxStep data s = some s') :
    bboxMeasure end_ s' < bboxMeasure end_ s := by
  have hC : (2 : Nat) ^ 30 = 1073741824 := by norm_num
  unfold bboxStep at h
  split at h
  · cases hr : readUint32 data s.pos with
    | none => rw [hr] at h; cases h
    | some w =>
      obtain ⟨cl, p1⟩ := w
      simp only [hr] at h
      obtain ⟨hle, hcnt⟩ := bboxExec_facts data (cl % 8) ((cl / 8 : Nat) : Int) p1 s s' h
      have h1 : s.pos < p1 := readUint32_lt data s.pos (cl, p1) hr
      have h2 : cl < 2 ^ 32 := readUint32_val_lt data s.pos (cl, p1) hr
      simp only [bboxMeasure, hC]
      have h3 : s'.count.toNat ≤ cl / 8 := by omega
      omega
  · obtain ⟨hle, hcnt⟩ := bboxExec_facts data s.command s.count s.pos s s' h
    simp only [bboxMeasure, hC]
    omega

/-! ### Ring-classification lemmas -/

theorem classifyLoop_area_ne_zero (rings : List (List Point))
    (polygons : List (List (List Point))) (polygon : Option (List (List Point)))
    (hpolys : ∀ p ∈ polygons, ∀ r ∈ p, signedArea r ≠ 0)
    (hcur : ∀ p, polygon = some p → ∀ r ∈ p, signedArea r ≠ 0) :
    (∀ p ∈ (classifyLoop rings polygons polygon).1, ∀ r ∈ p, signedArea r ≠ 0) ∧
    (∀ p, (classifyLoop rings polygons polygon).2 = some p →
       ∀ r ∈ p, signedArea r ≠ 0) := by
  induction rings generalizing polygons polygon with
  | nil => exact ⟨hpolys, hcur⟩
  | cons ring rest ih =>
    unfold classifyLoop
    by_cases h0 : signedArea ring = 0
    · simp only [if_pos h0]
      exact ih polygons polygon hpolys hcur
    · simp only [if_neg h0]
      by_cases hgt : 0 < signedArea ring
      · simp only [if_pos hgt]
        apply ih
        · intro p hp
          cases hpol : polygon with
          | none =>
            rw [hpol] at hp
            exact hpolys p hp
          | some q =>
            rw [hpol] at hp
            rcases List.mem_append.mp hp with hin | hq
            · exact hpolys p hin
            · rw [List.mem_singleton.mp hq]
              exact hcur q hpol
        · intro p hp r hr
          injection hp with hp2
          rw [← hp2] at hr
          rw [List.mem_singleton.mp hr]
          exact h0
      · simp only [if_neg hgt]
        apply ih
        · exact hpolys
        · intro p hp r hr
          cases hpol : polygon with
          | none => rw [hpol] at hp; cases hp
          | some q =>
            rw [hpol] at hp
            injection hp with hp2
            rw [← hp2] at hr
            rcases List.mem_append.mp hr with hin | hq
            · exact hcur q hpol r hin
            · rw [List.mem_singleton.mp hq]
              exact h0

theorem classifyLoop_eq_foldl (rings : List (List Point))
    (polygons : List (List (List Point))) (polygon : Option (List (List Point))) :
    classifyLoop rings polygons polygon =
      rings.foldl classifySpecStep (polygons, polygon) := by
  induction rings generalizing polygons polygon with
  | nil => rfl
  | cons ring rest ih =>
    show (if signedArea ring = 0 then classifyLoop rest polygons polygon
          else if 0 < signedArea ring then
            classifyLoop rest
              (match polygon with | some p => polygons ++ [p] | none => polygons)
              (some [ring])
          else classifyLoop rest polygons (polygon.map (fun p => p ++ [ring]))) =
         rest.foldl classifySpecStep (classifySpecStep (polygons, polygon) ring)
    unfold classifySpecStep
    by_cases h0 : signedArea ring = 0
    · simp only [if_pos h0]
      exact ih polygons polygon
    · simp only [if_neg h0]
      by_cases hgt : 0 < signedArea ring
      · simp only [if_pos hgt]
        exact ih _ _
      · simp only [if_neg hgt]
        exact ih _ _

/-! ## Claims -/

/-- C2 counterexample: the ring `(0,0)-(1,1)` has signed area zero, yet
classifying the single-ring input consisting of it yields the polygon
`[[that ring]]` — the ring is kept, not dropped, contradicting the claim
that a single zero-area ring yields no polygon containing it. -/
theorem c2_single_zero_area_ring_kept :
    signedArea [(⟨0, 0⟩ : Point), ⟨1, 1⟩] = 0 ∧
    classifyRings [[(⟨0, 0⟩ : Point), ⟨1, 1⟩]] = [[[(⟨0, 0⟩ : Point), ⟨1, 1⟩]]] := by
  decide

/-- C2 (amended): zero-area rings are dropped only when the input has two
or more rings — every ring of every polygon returned by `classifyRings`
then has nonzero signed area; a single-ring input is returned wrapped
regardless of its area. -/
theorem c2_zero_area_dropped_multi (rings : List (List Point))
    (h : 2 ≤ rings.length) (poly : List (List Point))
    (hpoly : poly ∈ classifyRings rings) (r : List Point) (hr : r ∈ poly) :
    signedArea r ≠ 0 := by
  unfold classifyRings at hpoly
  rw [if_neg (by omega)] at hpoly
  have H := classifyLoop_area_ne_zero rings [] none
    (by intro p hp; cases hp) (by intro p hp; cases hp)
  cases hres : (classifyLoop rings [] none).2 with
  | none =>
    rw [hres] at hpoly
    exact H.1 poly hpoly r hr
  | some q =>
    rw [hres] at hpoly
    rcases List.mem_append.mp hpoly with hin | hq
    · exact H.1 poly hin r hr
    · rw [List.mem_singleton.mp hq] at hr
      exact H.2 q hres r hr

/-- C2 witness: a two-ring input whose second ring has area zero; the
positive-area first ring survives into the output and indeed has nonzero
area. -/
theorem c2_zero_area_dropped_multi_witness :
    signedArea [(⟨0, 0⟩ : Point), ⟨1, 1⟩, ⟨0, 1⟩] ≠ 0 :=
  c2_zero_area_dropped_multi
    [[(⟨0, 0⟩ : Point), ⟨1, 1⟩, ⟨0, 1⟩], [⟨0, 0⟩, ⟨1, 1⟩]] (by decide)
    [[(⟨0, 0⟩ : Point), ⟨1, 1⟩, ⟨0, 1⟩]] (by decide)
    [(⟨0, 0⟩ : Point), ⟨1, 1⟩, ⟨0, 1⟩] (by decide)

/-- C3: an input with at most one ring is returned wrapped as a single
polygon, with no signed-area test involved in the result. -/
theorem c3_single_ring_wrapped (rings : List (List Point))
    (h : rings.length ≤ 1) : classifyRings rings = [rings] := by
  unfold classifyRings
  rw [if_pos h]

/-- C3 witness: a single ring of negative signed area is still wrapped. -/
theorem c3_single_ring_wrapped_witness :
    signedArea [(⟨0, 0⟩ : Point), ⟨0, 1⟩, ⟨1, 1⟩] < 0 ∧
    classifyRings [[(⟨0, 0⟩ : Point), ⟨0, 1⟩, ⟨1, 1⟩]] =
      [[[(⟨0, 0⟩ : Point), ⟨0, 1⟩, ⟨1, 1⟩]]] :=
  ⟨by decide, c3_single_ring_wrapped [[(⟨0, 0⟩ : Point), ⟨0, 1⟩, ⟨1, 1⟩]] (by decide)⟩

/-- C4: on inputs of two or more rings, `classifyRings` agrees with the
spec-worded classification: a positive area starts a new polygon, a
negative area is appended to the current polygon (and a dangling hole
before any outer ring is silently discarded), and a zero area is dropped
with no effect. -/
theorem c4_classify_matches_spec (rings : List (List Point))
    (h : 2 ≤ rings.length) : classifyRings rings = classifyRingsSpec rings := by
  unfold classifyRings classifyRingsSpec
  rw [if_neg (by omega), classifyLoop_eq_foldl]

/-- C4 witness: a concrete outer ring followed by a hole. -/
theorem c4_classify_matches_spec_witness :
    classifyRings [[(⟨0, 0⟩ : Point), ⟨1, 1⟩, ⟨0, 1⟩], [⟨0, 0⟩, ⟨0, 1⟩, ⟨1, 1⟩]] =
      classifyRingsSpec [[(⟨0, 0⟩ : Point), ⟨1, 1⟩, ⟨0, 1⟩], [⟨0, 0⟩, ⟨0, 1⟩, ⟨1, 1⟩]] :=
  c4_classify_matches_spec
    [[(⟨0, 0⟩ : Point), ⟨1, 1⟩, ⟨0, 1⟩], [⟨0, 0⟩, ⟨0, 1⟩, ⟨1, 1⟩]] (by decide)

/-- C7: geometry and bbox decoding are repeatable.  The only mutable state
shared between features of a tile is the reader cursor, made explicit here
as the incoming position argument; both accessors reseek to the recorded
geometry offset first, so their result is the same for any two incoming
cursor positions `p` and `q` — in particular after any interleaving of
other geometry, bbox or feature-decoding calls, and on an immediate second
call starting from the position the first call left behind. -/
theorem c7_geometry_decode_repeatable (data : Bytes) (f : Feature) (p q : Nat) :
    (loadGeometryWith data f p).1 = (loadGeometryWith data f q).1 ∧
    (bboxWith data f p).1 = (bboxWith data f q).1 ∧
    (loadGeometryWith data f (loadGeometryWith data f p).2).1 =
      (loadGeometryWith data f p).1 ∧
    (bboxWith data f (bboxWith data f p).2).1 = (bboxWith data f p).1 :=
  ⟨rfl, rfl, rfl, rfl⟩

/-- C10: for a feature whose geometry type is not POINT, LINESTRING or
POLYGON (in particular UNKNOWN = 0), `toGeoJSON` fails: no switch case
assigns coordinates and the unconditional length test dereferences the
missing value. -/
theorem c10_unknown_type_geojson_fails (data : Bytes) (f : Feature) (x y : Int)
    (zoom : Nat) (h1 : f.ftype ≠ 1) (h2 : f.ftype ≠ 2) (h3 : f.ftype ≠ 3) :
    Feature.toGeoJSON data f x y zoom = none := by
  unfold Feature.toGeoJSON
  simp only [if_neg h1, if_neg h2, if_neg h3]

/-- C10 witness: a default feature with type UNKNOWN. -/
theorem c10_unknown_type_geojson_fails_witness :
    Feature.toGeoJSON [] ⟨none, 0, [], 0, 0⟩ 0 0 0 = none :=
  c10_unknown_type_geojson_fails [] ⟨none, 0, [], 0, 0⟩ 0 0 0
    (by decide) (by decide) (by decide)

theorem insertLayer_mem (m : List (Bytes × Layer)) (nm : Bytes) (ly : Layer)
    (e : Bytes × Layer) (he : e ∈ insertLayer m nm ly) : e ∈ m ∨ e.2 = ly := by
  induction m with
  | nil =>
    right
    rw [List.mem_singleton.mp he]
  | cons kv rest ih =>
    obtain ⟨k, v⟩ := kv
    unfold insertLayer at he
    split at he
    · rcases List.mem_cons.mp he with hh | ht
      · right
        rw [hh]
      · left
        exact List.mem_cons_of_mem _ ht
    · rcases List.mem_cons.mp he with hh | ht
      · left
        rw [hh]
        exact List.mem_cons_self _ _
      · rcases ih ht with hin | hly
        · exact Or.inl (List.mem_cons_of_mem _ hin)
        · exact Or.inr hly

/-- C8: every layer kept in a decoded tile has at least one feature — a
layer with zero recorded feature offsets is never inserted into the
map. -/
theorem c8_layers_nonempty (data : Bytes) (m : List (Bytes × Layer))
    (h : decodeTile data = some m) (e : Bytes × Layer) (he : e ∈ m) :
    1 ≤ e.2.featureOffsets.length := by
  unfold decodeTile at h
  cases hl : loopFuel data.length (tileStep data) TileState.pos (data.length + 1)
      ⟨0, []⟩ with
  | none => rw [hl] at h; cases h
  | some s =>
    rw [hl] at h
    injection h with h2
    have hP := loopFuel_inv data.length (tileStep data) TileState.pos
      (fun t => ∀ x ∈ t.layers, 1 ≤ x.2.featureOffsets.length)
      (fun a b hab hPa => by
        unfold tileStep at hab
        cases h1 : readUint32 data a.pos with
        | none => rw [h1] at hab; cases hab
        | some w1 =>
          obtain ⟨v1, p1⟩ := w1
          simp only [h1] at hab
          cases hr2 : readUint32 data p1 with
          | none => rw [hr2] at hab; cases hab
          | some w2 =>
            obtain ⟨len, p2⟩ := w2
            simp only [hr2] at hab
            cases h3 : decodeLayer data (len + p2) p2 with
            | none => rw [h3] at hab; cases hab
            | some lp =>
              obtain ⟨ly, p3⟩ := lp
              simp only [h3] at hab
              injection hab with hab2
              rw [← hab2]
              intro x hx
              by_cases hne : ly.featureOffsets.length ≠ 0
              · simp only [if_pos hne] at hx
                rcases insertLayer_mem a.layers ly.name ly x hx with hin | hxly
                · exact hPa x hin
                · rw [hxly]; omega
              · simp only [if_neg hne] at hx
                exact hPa x hx)
      _ _ _ hl (by intro x hx; cases hx)
    rw [← h2] at he
    exact hP e he

/-- C8 witness: a one-layer tile whose single layer holds one feature. -/
theorem c8_layers_nonempty_witness :
    1 ≤ (Layer.mk [] 0 0 [3] [] []).featureOffsets.length :=
  c8_layers_nonempty [26, 2, 18, 0] [([], ⟨[], 0, 0, [3], [], []⟩)] (by decide)
    ([], ⟨[], 0, 0, [3], [], []⟩) (by decide)

theorem featureAt_ne_outOfBounds (data : Bytes) (ly : Layer) (pos : Nat) :
    featureAt data ly pos ≠ Except.error DecodeErr.outOfBounds := by
  unfold featureAt
  cases h1 : readUint32 data pos with
  | none =>
    intro hc
    injection hc with hc2
    cases hc2
  | some w =>
    obtain ⟨len, p⟩ := w
    cases h2 : decodeFeature data (len + p) ly.keys ly.values ly.extent p with
    | none =>
      simp only [h2]
      intro hc
      injection hc with hc2
      cases hc2
    | some fp =>
      simp only [h2]
      intro hc
      cases hc

/-- C5 counterexample: the buffer `[26, 4, 18, 2, 18, 127]` decodes to a
one-feature layer, yet `feature(0)` — a valid index — fails with a format
error rather than succeeding: the feature's field-2 sub-message declares a
length overrunning the buffer. -/
theorem c5_valid_index_can_fail :
    decodeTile [26, 4, 18, 2, 18, 127] = some [([], ⟨[], 0, 0, [3], [], []⟩)] ∧
    0 < (Layer.mk [] 0 0 [3] [] []).featureOffsets.length ∧
    Layer.feature [26, 4, 18, 2, 18, 127] ⟨[], 0, 0, [3], [], []⟩ 0 =
      Except.error DecodeErr.format := by decide

/-- C5 (amended): `layer.feature(index)` fails with the out-of-bounds
error exactly when the index is below 0 or at least the feature count;
for an in-range index it proceeds to decode at the recorded offset —
which may itself fail with a format error on corrupt input, but never
with the out-of-bounds error. -/
theorem c5_feature_index_validation (data : Bytes) (ly : Layer) (index : Int) :
    ((index < 0 ∨ (ly.featureOffsets.length : Int) ≤ index) ↔
       Layer.feature data ly index = Except.error DecodeErr.outOfBounds) ∧
    (0 ≤ index → index < (ly.featureOffsets.length : Int) →
       Layer.feature data ly index =
         featureAt data ly (ly.featureOffsets.getD index.toNat 0)) := by
  constructor
  · constructor
    · intro hcond
      unfold Layer.feature
      rw [if_pos hcond]
    · intro heq
      by_contra hcond
      unfold Layer.feature at heq
      rw [if_neg hcond] at heq
      exact featureAt_ne_outOfBounds data ly _ heq
  · intro h0 hlen
    unfold Layer.feature
    rw [if_neg (by omega)]

/-- C5 witness: index 0 on a one-feature layer reaches the decoder at the
recorded offset 3. -/
theorem c5_feature_index_validation_witness :
    Layer.feature [26, 2, 18, 0] ⟨[], 0, 0, [3], [], []⟩ 0 =
      featureAt [26, 2, 18, 0] ⟨[], 0, 0, [3], [], []⟩ 3 :=
  (c5_feature_index_validation [26, 2, 18, 0] ⟨[], 0, 0, [3], [], []⟩ 0).2
    (by decide) (by decide)

/-- C6 counterexample: the buffer decodes to a feature of type UNKNOWN (0)
with a well-formed geometry; all three of `asPoints`, `asLines` and
`asPolygons` return null (`some none`) — none of them is non-null,
contradicting the claim that exactly one of the three is non-null for any
feature. -/
theorem c6_unknown_type_all_null :
    (decodeTile [26, 9, 18, 7, 24, 0, 34, 3, 9, 2, 2]).map
        (fun m => m.map
          (fun e => Layer.feature [26, 9, 18, 7, 24, 0, 34, 3, 9, 2, 2] e.2 0)) =
      some [Except.ok ⟨none, 0, [], 7, 0⟩] ∧
    Feature.asPoints [26, 9, 18, 7, 24, 0, 34, 3, 9, 2, 2] ⟨none, 0, [], 7, 0⟩ =
      some none ∧
    Feature.asLines [26, 9, 18, 7, 24, 0, 34, 3, 9, 2, 2] ⟨none, 0, [], 7, 0⟩ =
      some none ∧
    Feature.asPolygons [26, 9, 18, 7, 24, 0, 34, 3, 9, 2, 2] ⟨none, 0, [], 7, 0⟩ =
      some none := by decide

/-- C6 (amended): each accessor returns null unless the feature's type
matches it (so at most one is non-null), and when the type is POINT,
LINESTRING or POLYGON and the geometry decodes, exactly one of the three
is non-null.  For a type matching none of the three (UNKNOWN or any other
code) all three return null. -/
theorem c6_accessor_type_dispatch (data : Bytes) (f : Feature) :
    (f.ftype ≠ 1 →
       Feature.asPoints data f = none ∨ Feature.asPoints data f = some none) ∧
    (f.ftype ≠ 2 → Feature.asLines data f = some none) ∧
    (f.ftype ≠ 3 → Feature.asPolygons data f = some none) ∧
    (∀ g, Feature.loadGeometry data f = some g →
      (f.ftype = 1 →
        Feature.asPoints data f = some (some (g.map List.head?)) ∧
        Feature.asLines data f = some none ∧
        Feature.asPolygons data f = some none) ∧
      (f.ftype = 2 →
        Feature.asPoints data f = some none ∧
        Feature.asLines data f = some (some g) ∧
        Feature.asPolygons data f = some none) ∧
      (f.ftype = 3 →
        Feature.asPoints data f = some none ∧
        Feature.asLines data f = some none ∧
        Feature.asPolygons data f = some (some (classifyRings g)))) := by
  refine ⟨?_, ?_, ?_, ?_⟩
  · intro h1
    unfold Feature.asPoints
    cases hg : Feature.loadGeometry data f with
    | none => exact Or.inl rfl
    | some g =>
      right
      simp only [if_neg h1]
  · intro h2
    unfold Feature.asLines
    rw [if_neg h2]
  · intro h3
    unfold Feature.asPolygons
    rw [if_neg h3]
  · intro g hg
    refine ⟨?_, ?_, ?_⟩
    · intro ht
      refine ⟨?_, ?_, ?_⟩
      · unfold Feature.asPoints
        rw [hg]
        simp only [if_pos ht]
      · unfold Feature.asLines
        rw [if_neg (show f.ftype ≠ 2 by omega)]
      · unfold Feature.asPolygons
        rw [if_neg (show f.ftype ≠ 3 by omega)]
    · intro ht
      refine ⟨?_, ?_, ?_⟩
      · unfold Feature.asPoints
        rw [hg]
        simp only [if_neg (show f.ftype ≠ 1 by omega)]
      · unfold Feature.asLines
        rw [if_pos ht, hg]
      · unfold Feature.asPolygons
        rw [if_neg (show f.ftype ≠ 3 by omega)]
    · intro ht
      refine ⟨?_, ?_, ?_⟩
      · unfold Feature.asPoints
        rw [hg]
        simp only [if_neg (show f.ftype ≠ 1 by omega)]
      · unfold Feature.asLines
        rw [if_neg (show f.ftype ≠ 2 by omega)]
      · unfold Feature.asPolygons
        rw [if_pos ht, hg]

/-- C6 witness: the same geometry with type POINT: `asPoints` is the one
non-null accessor. -/
theorem c6_accessor_type_dispatch_witness :
    Feature.asPoints [26, 9, 18, 7, 24, 1, 34, 3, 9, 2, 2] ⟨none, 1, [], 7, 0⟩ =
      some (some [some ⟨1, 1⟩]) ∧
    Feature.asLines [26, 9, 18, 7, 24, 1, 34, 3, 9, 2, 2] ⟨none, 1, [], 7, 0⟩ =
      some none ∧
    Feature.asPolygons [26, 9, 18, 7, 24, 1, 34, 3, 9, 2, 2] ⟨none, 1, [], 7, 0⟩ =
      some none :=
  ((c6_accessor_type_dispatch [26, 9, 18, 7, 24, 1, 34, 3, 9, 2, 2]
      ⟨none, 1, [], 7, 0⟩).2.2.2 [[⟨1, 1⟩]] (by decide)).1 rfl

/-- C9 counterexample: inside the geometry command loop, the state with a
pending ClosePath-free unknown command (command integer 16 = command 0,
count 2) is reached after one iteration; the next iteration succeeds while
the reader position stays at 1, below the end offset 2 — the position does
not strictly advance on every path. -/
theorem c9_command_loop_position_stall :
    geomStep [16, 0] ⟨0, 1, 0, 0, 0, [], none⟩ = some ⟨1, 0, 1, 0, 0, [], none⟩ ∧
    geomStep [16, 0] ⟨1, 0, 1, 0, 0, [], none⟩ = some ⟨1, 0, 0, 0, 0, [], none⟩ ∧
    (⟨1, 0, 1, 0, 0, [], none⟩ : GeomState).pos <
      (⟨1, 0, 0, 0, 0, [], none⟩ : GeomState).pos + 1 := by decide

/-- C9 (amended): every decode loop is bounded by an end offset read
before the loop and terminates.  The scan steps (layer, feature, value,
key/value pair, tile) strictly advance the reader position on every
successful iteration; the geometry and bbox command steps strictly
decrease a lexicographic measure — either the position advances, or it
stays (ClosePath or an unrecognized command with remaining repeat count)
and the pending count decreases — so every loop computes the same result
with any fuel above its measure. -/
theorem c9_decode_loops_bounded :
    (∀ (data : Bytes) s s', layerStep data s = some s' → s.pos < s'.pos) ∧
    (∀ (data : Bytes) K V s s', featStep data K V s = some s' → s.pos < s'.pos) ∧
    (∀ (data : Bytes) s s', valueStep data s = some s' → s.pos < s'.pos) ∧
    (∀ (data : Bytes) K V s s', pairStep data K V s = some s' → s.pos < s'.pos) ∧
    (∀ (data : Bytes) s s', tileStep data s = some s' → s.pos < s'.pos) ∧
    (∀ (data : Bytes) e s s', s.pos < e → geomStep data s = some s' →
        geomMeasure e s' < geomMeasure e s) ∧
    (∀ (data : Bytes) e s s', s.pos < e → bboxStep data s = some s' →
        bboxMeasure e s' < bboxMeasure e s) ∧
    (∀ (data : Bytes) e fuel (s : GeomState), geomMeasure e s < fuel →
        loopFuel e (geomStep data) GeomState.pos fuel s =
          loopFuel e (geomStep data) GeomState.pos (geomMeasure e s + 1) s) ∧
    (∀ (data : Bytes) e fuel (s : BboxState), bboxMeasure e s < fuel →
        loopFuel e (bboxStep data) BboxState.pos fuel s =
          loopFuel e (bboxStep data) BboxState.pos (bboxMeasure e s + 1) s) ∧
    (∀ (data : Bytes) e fuel (s : LayerState), e - s.pos < fuel →
        loopFuel e (layerStep data) LayerState.pos fuel s =
          loopFuel e (layerStep data) LayerState.pos (e - s.pos + 1) s) :=
  ⟨layerStep_lt, featStep_lt, valueStep_lt, pairStep_lt, tileStep_lt,
   geomStep_measure, bboxStep_measure,
   fun data e fuel s h =>
     loopFuel_measure_eq e (geomStep data) GeomState.pos (geomMeasure e)
       (fun a b hp hab => geomStep_measure data e a b hp hab) fuel s h,
   fun data e fuel s h =>
     loopFuel_measure_eq e (bboxStep data) BboxState.pos (bboxMeasure e)
       (fun a b hp hab => bboxStep_measure data e a b hp hab) fuel s h,
   fun data e fuel s h =>
     loopFuel_measure_eq e (layerStep data) LayerState.pos (fun t => e - t.pos)
       (fun a b hp hab => by
         have h1 := layerStep_lt data a b hab
         show e - b.pos < e - a.pos
         omega) fuel s h⟩

/-- C9 witness: the measure strictly decreases at the concrete stalled
iteration (position unchanged, pending count decremented). -/
theorem c9_decode_loops_bounded_witness :
    geomMeasure 2 ⟨1, 0, 0, 0, 0, [], none⟩ < geomMeasure 2 ⟨1, 0, 1, 0, 0, [], none⟩ :=
  c9_decode_loops_bounded.2.2.2.2.2.1 [16, 0] 2 ⟨1, 0, 1, 0, 0, [], none⟩
    ⟨1, 0, 0, 0, 0, [], none⟩ (by decide) (by decide)

/-! ### Table independence of feature decoding (for C1) -/

theorem pairStep_pos_indep (data : Bytes) (K K' : List Bytes) (V V' : List PropValue)
    (pos : Nat) (pr pr' : List Entry) :
    (pairStep data K V ⟨pos, pr⟩).map PairState.pos =
    (pairStep data K' V' ⟨pos, pr'⟩).map PairState.pos := by
  simp only [pairStep]
  cases h1 : readUint32 data pos with
  | none => rfl
  | some w1 =>
    obtain ⟨k, p1⟩ := w1
    dsimp only
    cases h2 : readUint32 data p1 with
    | none => rfl
    | some w2 => rfl

theorem pairsLoop_pos_indep (data : Bytes) (K K' : List Bytes) (V V' : List PropValue)
    (e : Nat) : ∀ (fuel pos : Nat) (pr pr' : List Entry),
    (loopFuel e (pairStep data K V) PairState.pos fuel ⟨pos, pr⟩).map PairState.pos =
    (loopFuel e (pairStep data K' V') PairState.pos fuel ⟨pos, pr'⟩).map PairState.pos := by
  intro fuel
  induction fuel with
  | zero => intro pos pr pr'; rfl
  | succ f ih =>
    intro pos pr pr'
    simp only [loopFuel]
    by_cases hp : pos < e
    · rw [if_pos hp, if_pos hp]
      have hst := pairStep_pos_indep data K K' V V' pos pr pr'
      cases hs : pairStep data K V ⟨pos, pr⟩ with
      | none =>
        cases hs' : pairStep data K' V' ⟨pos, pr'⟩ with
        | none => rfl
        | some t1 => rw [hs, hs'] at hst; cases hst
      | some s1 =>
        cases hs' : pairStep data K' V' ⟨pos, pr'⟩ with
        | none => rw [hs, hs'] at hst; cases hst
        | some t1 =>
          rw [hs, hs'] at hst
          simp only [Option.map_some'] at hst
          injection hst with h2
          obtain ⟨ps1, pl1⟩ := s1
          obtain ⟨pt1, tl1⟩ := t1
          have h3 : ps1 = pt1 := h2
          rw [← h3]
          exact ih ps1 pl1 tl1
    · rw [if_neg hp, if_neg hp]
      rfl

theorem featStep_pos_indep (data : Bytes) (K K' : List Bytes) (V V' : List PropValue)
    (s t : FeatState) (hpos : s.pos = t.pos) :
    (featStep data K V s).map FeatState.pos =
    (featStep data K' V' t).map FeatState.pos := by
  simp only [featStep]
  rw [hpos]
  cases htag : readTag data t.pos with
  | none => rfl
  | some tr =>
    obtain ⟨fieldId, wire, p1⟩ := tr
    by_cases h1 : fieldId = 1
    · simp only [if_pos h1]
      cases hr : readInt64 data p1 with
      | none => rfl
      | some a => rfl
    simp only [if_neg h1]
    by_cases h2 : fieldId = 2
    · simp only [if_pos h2]
      cases hr : readUint32 data p1 with
      | none => rfl
      | some w =>
        obtain ⟨len, p2⟩ := w
        dsimp only
        have hloop := pairsLoop_pos_indep data K K' V V' (len + p2) (len + 1) p2
          s.props t.props
        cases hl : loopFuel (len + p2) (pairStep data K V) PairState.pos (len + 1)
            ⟨p2, s.props⟩ with
        | none =>
          cases hl' : loopFuel (len + p2) (pairStep data K' V') PairState.pos (len + 1)
              ⟨p2, t.props⟩ with
          | none => rfl
          | some pt => rw [hl, hl'] at hloop; cases hloop
        | some ps =>
          cases hl' : loopFuel (len + p2) (pairStep data K' V') PairState.pos (len + 1)
              ⟨p2, t.props⟩ with
          | none => rw [hl, hl'] at hloop; cases hloop
          | some pt =>
            rw [hl, hl'] at hloop
            simp only [Option.map_some'] at hloop
            injection hloop with h3
            dsimp only
            rw [h3]
            rfl
    simp only [if_neg h2]
    by_cases h3 : fieldId = 3
    · simp only [if_pos h3]
      cases hr : readUint32 data p1 with
      | none => rfl
      | some a => rfl
    simp only [if_neg h3]
    by_cases h4 : fieldId = 4
    · simp only [if_pos h4]
      cases hr : skipField data wire p1 with
      | none => rfl
      | some a => rfl
    simp only [if_neg h4]
    rfl

theorem featLoop_pos_indep (data : Bytes) (K K' : List Bytes) (V V' : List PropValue)
    (e : Nat) : ∀ (fuel : Nat) (s t : FeatState), s.pos = t.pos →
    (loopFuel e (featStep data K V) FeatState.pos fuel s).map FeatState.pos =
    (loopFuel e (featStep data K' V') FeatState.pos fuel t).map FeatState.pos := by
  intro fuel
  induction fuel with
  | zero => intro s t hpos; rfl
  | succ f ih =>
    intro s t hpos
    simp only [loopFuel]
    by_cases hp : t.pos < e
    · rw [if_pos (show FeatState.pos s < e by rw [hpos]; exact hp), if_pos hp]
      have hst := featStep_pos_indep data K K' V V' s t hpos
      cases hs : featStep data K V s with
      | none =>
        cases hs' : featStep data K' V' t with
        | none => rfl
        | some t1 => rw [hs, hs'] at hst; cases hst
      | some s1 =>
        cases hs' : featStep data K' V' t with
        | none => rw [hs, hs'] at hst; cases hst
        | some t1 =>
          rw [hs, hs'] at hst
          simp only [Option.map_some'] at hst
          injection hst with h2
          exact ih s1 t1 h2
    · rw [if_neg (show ¬ FeatState.pos s < e by rw [hpos]; exact hp), if_neg hp]
      simp only [Option.map_some']
      rw [hpos]

/-- C1 counterexample: a tile whose single feature carries the packed
key/value pair (0, 0) while the layer's key and value tables are empty —
both indices are out of range, yet feature decoding succeeds, returning a
property dictionary with the unresolved (`undefined`) entry instead of
failing with a format error. -/
theorem c1_out_of_range_index_succeeds :
    decodeTile [26, 6, 18, 4, 18, 2, 0, 0] = some [([], ⟨[], 0, 0, [3], [], []⟩)] ∧
    Layer.feature [26, 6, 18, 4, 18, 2, 0, 0] ⟨[], 0, 0, [3], [], []⟩ 0 =
      Except.ok ⟨none, 0, [(none, none)], 0, 0⟩ := by decide

/-- C1 (amended): an out-of-range key or value index never makes feature
decoding fail: whether the `Feature` constructor succeeds, and the reader
position it leaves behind, are independent of the key/value tables it
resolves against (each pair is recorded with `none` standing for the
`undefined` lookup result, as exhibited by the counterexample). -/
theorem c1_feature_decode_table_independent (data : Bytes) (K K' : List Bytes)
    (V V' : List PropValue) (ext ext' e pos : Nat) :
    (decodeFeature data e K V ext pos).isSome =
      (decodeFeature data e K' V' ext' pos).isSome ∧
    (decodeFeature data e K V ext pos).map (fun fp => fp.2) =
      (decodeFeature data e K' V' ext' pos).map (fun fp => fp.2) := by
  have H := featLoop_pos_indep data K K' V V' e (e - pos + 1)
    ⟨pos, none, 0, [], 0⟩ ⟨pos, none, 0, [], 0⟩ rfl
  unfold decodeFeature
  cases hl : loopFuel e (featStep data K V) FeatState.pos (e - pos + 1)
      ⟨pos, none, 0, [], 0⟩ with
  | none =>
    cases hl' : loopFuel e (featStep data K' V') FeatState.pos (e - pos + 1)
        ⟨pos, none, 0, [], 0⟩ with
    | none => exact ⟨rfl, rfl⟩
    | some t => rw [hl, hl'] at H; cases H
  | some s =>
    cases hl' : loopFuel e (featStep data K' V') FeatState.pos (e - pos + 1)
        ⟨pos, none, 0, [], 0⟩ with
    | none => rw [hl, hl'] at H; cases H
    | some t =>
      rw [hl, hl'] at H
      simp only [Option.map_some'] at H
      injection H with h2
      refine ⟨rfl, ?_⟩
      simp only [Option.map_some']
      rw [h2]

end VectorTileProof
